import Mathlib

/-!
Shallow embedding of the IOI scoring program (src/ioi_judge.cpp) from the
IOIJudge repository, together with theorems settling the frozen claims
about its specification.

The embedding models the doubles of the source as exact rationals, the
std::map containers as association lists (first-binding lookup, in-place
replacement on update, append on miss — matching std::map semantics for
the operations the program performs), and machine ints as unbounded
integers (no claim depends on overflow).
-/

namespace IOIJudge

/-- EPS from line 36 of ioi_judge.cpp: 1e-9, as an exact rational. -/
def EPS : ℚ := 1 / 1000000000

/-- INCORRECT_SUBMISSION_PENALTY (line 37): minutes charged per failed try. -/
def WRONG_TRY_COST : Int := 10

/-- Solved-state constant UNSOLVED = 0 (line 51). -/
def UNSOLVED : Nat := 0

/-- Solved-state constant FULLY_SOLVED = 1 (line 52). -/
def FULLY_SOLVED : Nat := 1

/-- Solved-state constant PARTIALLY_SOLVED = 2 (line 53). -/
def PART_SOLVED : Nat := 2

/-- A problem record as held in the `problems` vector (struct Problem,
lines 119-175), after successful construction. -/
structure Problem where
  id : Int
  timelimit : Int
  opt : Int
  pset : String
  starttime : Int
  endtime : Int
  points : ℚ
  code : String
  name : String
deriving DecidableEq

/-- A submission record (struct Submission, lines 248-272).  `score` holds
the raw value read from the input; the constructor's epsilon normalization
(lines 263-264) is applied by `normScore` at the start of processing. -/
structure Submission where
  userid : Int
  problemid : Int
  timestamp : Int
  status : Int
  language : Int
  score : ℚ
  time : ℚ
  date : String
deriving DecidableEq

/-- Per-(user, problem) aggregate (struct UserProblem, lines 211-221).
Field defaults are the constructor's initializer list; `date` is left
uninitialized by the source constructor but is always written before any
read, so we default it to 0. -/
structure UserProblem where
  solved : Nat := UNSOLVED
  score : ℚ := 0
  tries : Nat := 0
  failed_tries : Nat := 0
  time : Int := 0
  date : Int := 0
deriving DecidableEq

/-- Per-(user, problem-set) aggregate (struct Result, lines 225-246).
`prob` is the map from problem id to UserProblem.  The source constructor
leaves `userid` uninitialized; it is assigned on every touch before any
read, so we default it to 0. -/
structure Result where
  userid : Int := 0
  numsolved : Nat := 0
  last_solved : Int := 0
  totalscore : ℚ := 0
  penalty : Int := 0
  prob : List (Int × UserProblem) := []
deriving DecidableEq

/-- Association-list lookup: the binding std::map::find would return
(first binding for the key). -/
def alook {α β : Type} [DecidableEq α] : List (α × β) → α → Option β
  | [], _ => none
  | (k, v) :: rest, k' => if k' = k then some v else alook rest k'

/-- Association-list update: replace the binding for `k` in place, or
append a fresh binding when absent — the effect of writing through
std::map::operator[]. -/
def upd {α β : Type} [DecidableEq α] : List (α × β) → α → β → List (α × β)
  | [], k, v => [(k, v)]
  | (k1, v1) :: rest, k, v =>
      if k = k1 then (k, v) :: rest else (k1, v1) :: upd rest k v

/-- The epsilon normalization performed by the Submission constructor
(lines 263-264): scores within EPS of 100 become exactly 100. -/
def normScore (x : ℚ) : ℚ := if |100 - x| < EPS then 100 else x

/-- The catalog built by the loading phase: the `problems` vector, the
`prob_id2idx` map, and the set of known user ids (only membership in
`users` is consulted by the aggregation loop). -/
structure Catalog where
  problems : List Problem
  prob_id2idx : List (Int × Nat)
  users : List Int

/-- `prob_id2idx[s.problemid]` (line 363): std::map::operator[] on a
missing key default-inserts the value 0, so an unknown problem id reads
as index 0 now and on every later lookup. -/
def probIdx (c : Catalog) (pid : Int) : Nat := (alook c.prob_id2idx pid).getD 0

/-- The per-submission UserProblem state machine (lines 367-381), acting
on the UserProblem alone.  `sc` is the already-normalized score, `ts` the
submission timestamp. -/
def stepUP (prob : Problem) (sc : ℚ) (ts : Int) (up0 : UserProblem) : UserProblem :=
  let up := { up0 with tries := up0.tries + 1 }
  if up.solved ≠ FULLY_SOLVED then
    if |100 - sc| < EPS then
      { up with solved := FULLY_SOLVED, score := sc, date := ts,
                time := ts - prob.starttime }
    else
      { up with solved := PART_SOLVED, failed_tries := up.failed_tries + 1,
                score := sc, date := ts, time := ts - prob.starttime }
  else up

/-- The aggregation state: the `results` map, flattened to associate each
(problem-set name, user id) pair with its Result. -/
abbrev RState := List ((String × Int) × Result)

/-- The new value of the touched Result (lines 365-381): `userid` is
overwritten, `numsolved` increments exactly when this submission turns
the entry fully solved (lines 370-372), and the entry for `pid` is
stepped through the state machine. -/
def updRes (prob : Problem) (sc : ℚ) (ts : Int) (pid uid : Int) (res0 : Result) : Result :=
  { res0 with
    userid := uid,
    numsolved :=
      if ((alook res0.prob pid).getD {}).solved ≠ FULLY_SOLVED ∧ |100 - sc| < EPS then
        res0.numsolved + 1
      else res0.numsolved,
    prob := upd res0.prob pid (stepUP prob sc ts ((alook res0.prob pid).getD {})) }

/-- Processing of one submission by the aggregation loop
(lines 361-381).  Unknown users are skipped (line 362); the problem is
fetched through `probIdx` (line 363; an out-of-range vector index is
undefined behaviour in the source and is modelled as a no-op, it cannot
occur while the catalog is nonempty). -/
def processSub (c : Catalog) (st : RState) (s : Submission) : RState :=
  if s.userid ∈ c.users then
    match (c.problems[probIdx c s.problemid]? : Option Problem) with
    | none => st
    | some prob =>
      upd st (prob.pset, s.userid)
        (updRes prob (normScore s.score) s.timestamp s.problemid s.userid
          ((alook st (prob.pset, s.userid)).getD {}))
  else st

/-- One snapshot's aggregation pass (lines 351-382): fold the submission
list, in input order, over the empty `results` map. -/
def aggregate (c : Catalog) (subs : List Submission) : RState :=
  subs.foldl (processSub c) []

/-- One iteration of the per-Result scoring loop (lines 393-407): for
problem index `j` of the set, add the entry's scaled score and failed-try
penalty and fold its time into `last_solved`, when the entry exists and
is not Unsolved. -/
def scoreStep (problems : List Problem) (res : Result) (j : Nat) : Result :=
  match (problems[j]? : Option Problem) with
  | none => res
  | some prob =>
    match alook res.prob prob.id with
    | some up =>
      if up.solved ≠ UNSOLVED then
        { res with
          totalscore := res.totalscore + prob.points * (up.score / 100),
          penalty := res.penalty + (up.failed_tries : Int) * WRONG_TRY_COST * 60,
          last_solved := max res.last_solved up.time }
      else res
    | none => res

/-- The scoring of one Result (lines 390-408): fold `scoreStep` over the
set's problem indices, then fold `last_solved` into `penalty` once
(line 408). -/
def scoreResult (problems : List Problem) (vprob : List Nat) (res : Result) : Result :=
  let r := vprob.foldl (scoreStep problems) res
  { r with penalty := r.penalty + r.last_solved }

/-- Result::operator< (lines 234-245): total score descending with EPS
tolerance, then penalty ascending, last_solved ascending, numsolved
descending, userid ascending. -/
def rlt (a b : Result) : Bool :=
  if |a.totalscore - b.totalscore| > EPS then decide (a.totalscore > b.totalscore)
  else if a.penalty ≠ b.penalty then decide (a.penalty < b.penalty)
  else if a.last_solved ≠ b.last_solved then decide (a.last_solved < b.last_solved)
  else if a.numsolved ≠ b.numsolved then decide (a.numsolved > b.numsolved)
  else decide (a.userid < b.userid)

/-- The rank-assignment loop body (lines 429-437): `prev` is the previous
row's total score (`prev_score`), `rank` the current rank, `i` the 0-based
row index; the rank jumps to `i + 1` when the score drops below
`prev - EPS`. -/
def ranksFrom (prev : ℚ) (rank : Nat) (i : Nat) : List Result → List Nat
  | [] => []
  | res :: rest =>
    let rk := if res.totalscore < prev - EPS then i + 1 else rank
    rk :: ranksFrom res.totalscore rk (i + 1) rest

/-- The displayed rank of every row, in row order (lines 429-437:
prev_score starts at 0.0, rank at 1, i at 0). -/
def ranks (rows : List Result) : List Nat := ranksFrom 0 1 0 rows

/-! ### Problem-record loading and its two fatal errors -/

/-- The raw fields of one problem record as read by the Problem
constructor (lines 131-174).  `pointsField` is `none` when the Info line
does not parse as a real number (the failed `sscanf` of line 164). -/
structure ProblemRec where
  id : Int
  timelimit : Int
  code : String
  name : String
  opt : Int
  pset : String
  starttime : Int
  endtime : Int
  pointsField : Option ℚ
deriving DecidableEq

/-- The two problem-parsing exceptions (lines 103-117), with the
diagnostic payload printed by the catch block of lines 321-332: problem
id, ordinal position (i+1), code and name. -/
inductive ProblemError : Type
  | illegalCategory (id : Int) (pos : Nat) (code name : String)
  | invalidPointValue (id : Int) (pos : Nat) (code name : String)
deriving DecidableEq

/-- Construction of one Problem (lines 131-174): a nonzero category flag
throws IllegalProblemCategory (lines 144-149, checked first), an
unparsable point value throws IllFormattedPointValue (lines 163-169). -/
def parseProblem (r : ProblemRec) (pos : Nat) : Except ProblemError Problem :=
  if r.opt ≠ 0 then
    .error (.illegalCategory r.id pos r.code r.name)
  else
    match r.pointsField with
    | none => .error (.invalidPointValue r.id pos r.code r.name)
    | some pts =>
        .ok ⟨r.id, r.timelimit, r.opt, r.pset, r.starttime, r.endtime, pts,
             r.code, r.name⟩

/-- The problem-loading loop (lines 312-333) from ordinal position `pos`:
the first exception aborts the whole load. -/
def loadProblemsAux (pos : Nat) : List ProblemRec → Except ProblemError (List Problem)
  | [] => .ok []
  | r :: rest =>
    match parseProblem r pos with
    | .error e => .error e
    | .ok p =>
      match loadProblemsAux (pos + 1) rest with
      | .error e => .error e
      | .ok ps => .ok (p :: ps)

/-- Loading of the whole problem catalog; ordinal positions are 1-based
(the `i+1` of line 327). -/
def loadProblems (recs : List ProblemRec) : Except ProblemError (List Problem) :=
  loadProblemsAux 1 recs

/-- The process exit status as a function of problem-record validity: the
catch block returns 1 (line 331) before any ranking output; the normal
path returns 0 (line 476). -/
def judgeExit (recs : List ProblemRec) : Nat :=
  match loadProblems recs with
  | .error _ => 1
  | .ok _ => 0

/-- A problem record that constructs without throwing: classical category
and a parsable point value. -/
def validRec (r : ProblemRec) : Prop := r.opt = 0 ∧ r.pointsField ≠ none

instance (r : ProblemRec) : Decidable (validRec r) := by
  unfold validRec; infer_instance

/-- The diagnostic produced for an invalid record at 1-based position
`pos`, with the category check taking precedence (source check order). -/
def recError (r : ProblemRec) (pos : Nat) : ProblemError :=
  if r.opt ≠ 0 then .illegalCategory r.id pos r.code r.name
  else .invalidPointValue r.id pos r.code r.name

/-! ### Spec-side definitions (used to state claims, not taken from the
source) -/

/-- Per-problem contribution to the total score: `points × score/100`
for an existing, non-Unsolved entry of the prob map `pm`, else 0. -/
def contribScore (problems : List Problem) (pm : List (Int × UserProblem)) (j : Nat) : ℚ :=
  match (problems[j]? : Option Problem) with
  | none => 0
  | some prob =>
    match alook pm prob.id with
    | some up => if up.solved ≠ UNSOLVED then prob.points * (up.score / 100) else 0
    | none => 0

/-- Per-problem contribution to the penalty sum: `failed_tries × 10 × 60`
seconds for an existing, non-Unsolved entry, else 0. -/
def contribPen (problems : List Problem) (pm : List (Int × UserProblem)) (j : Nat) : Int :=
  match (problems[j]? : Option Problem) with
  | none => 0
  | some prob =>
    match alook pm prob.id with
    | some up =>
        if up.solved ≠ UNSOLVED then (up.failed_tries : Int) * WRONG_TRY_COST * 60
        else 0
    | none => 0

/-- The time-offset of the entry for problem index `j` when it exists and
is not Unsolved: the values whose running maximum is `last_solved`. -/
def touchTime (problems : List Problem) (pm : List (Int × UserProblem)) (j : Nat) : Option Int :=
  match (problems[j]? : Option Problem) with
  | none => none
  | some prob =>
    match alook pm prob.id with
    | some up => if up.solved ≠ UNSOLVED then some up.time else none
    | none => none

/-- Modelled from the spec: the display-rank rule in the claim's words —
the first row ranks 1; each later row ranks at its 1-based position
unless its total score is within EPS of the previous row's, in which
case it shares the previous row's rank. -/
def specRanksFrom (prevScore : ℚ) (prevRank : Nat) (i : Nat) : List Result → List Nat
  | [] => []
  | res :: rest =>
    let rk := if |res.totalscore - prevScore| ≤ EPS then prevRank else i + 1
    rk :: specRanksFrom res.totalscore rk (i + 1) rest

/-- Modelled from the spec: display ranks for a whole row list. -/
def specRanks : List Result → List Nat
  | [] => []
  | res :: rest => 1 :: specRanksFrom res.totalscore 1 1 rest

/-- The submissions of user `u` for problem `p`, in input order. -/
def subsFor (u p : Int) (subs : List Submission) : List Submission :=
  subs.filter (fun s => s.userid = u ∧ s.problemid = p)

/-- The UserProblem entry recorded for user `u` and problem `p` in an
aggregation state: the entry the source reads through
`results[prob.pset][u].prob[p]`. -/
def upAt (c : Catalog) (st : RState) (u p : Int) : Option UserProblem :=
  (c.problems[probIdx c p]? : Option Problem).bind fun prob =>
    (alook st (prob.pset, u)).bind fun res => alook res.prob p

/-- The evolution of one (user, problem) UserProblem under its own
submission subsequence (the state machine of lines 367-381 projected to
a single entry). -/
def upFold (prob : Problem) (up : UserProblem) (l : List Submission) : UserProblem :=
  l.foldl (fun up s => stepUP prob (normScore s.score) s.timestamp up) up

/-! ### Concrete instances used by counterexamples and witnesses -/

/-- An entry of a prob map that is fully solved. -/
def isFully (e : Int × UserProblem) : Bool := e.2.solved == FULLY_SOLVED

/-- Invariant of every Result held by the aggregation state: the scoring
fields are untouched (still zero), `numsolved` counts exactly the fully
solved entries of the prob map, and every entry has been tried at least
once and is not Unsolved. -/
def ResCore (res : Result) : Prop :=
  res.totalscore = 0 ∧ res.penalty = 0 ∧ res.last_solved = 0 ∧
  res.numsolved = res.prob.countP isFully ∧
  ∀ e ∈ res.prob, 1 ≤ e.2.tries ∧ e.2.solved ≠ UNSOLVED

/-- Invariant of a state binding: the Result satisfies `ResCore` and its
`userid` field is the user component of its key. -/
def ResInv (key : String × Int) (res : Result) : Prop :=
  res.userid = key.2 ∧ ResCore res

/-- Invariant of the whole aggregation state. -/
def StInv (st : RState) : Prop := ∀ key res, alook st key = some res → ResInv key res

/-- A concrete catalog problem used by witnesses. -/
def wProb : Problem := ⟨1, 1, 0, "A", 0, 3600, 100, "p", "P"⟩

/-- A concrete catalog: one problem (id 1, set "A"), one user (id 7). -/
def wCat : Catalog := ⟨[wProb], [(1, 0)], [7]⟩

def wSub40 : Submission := ⟨7, 1, 5, 14, 1, 40, 0, "d"⟩

def wSub60 : Submission := ⟨7, 1, 10, 14, 1, 60, 0, "d"⟩

def wSub70 : Submission := ⟨7, 1, 20, 14, 1, 70, 0, "d"⟩

def wSub100 : Submission := ⟨7, 1, 30, 15, 1, 100, 0, "d"⟩

def wSubs3 : List Submission := [wSub60, wSub100, wSub40]

/-- The UserProblem produced by the single 60-score submission. -/
def wUp60 : UserProblem := ⟨PART_SOLVED, 60, 1, 1, 10, 10⟩

/-- The Result produced by the single 60-score submission. -/
def wRes60 : Result := ⟨7, 0, 0, 0, 0, [(1, wUp60)]⟩

def c6A : Result := ⟨1, 0, 0, 0, 0, []⟩

def c6B : Result := ⟨2, 0, 0, EPS, 1, []⟩

def c6C : Result := ⟨3, 0, 0, 2 * EPS, 2, []⟩

def c6A2 : Result := ⟨1, 0, 0, 0, 0, []⟩

def c6B2 : Result := ⟨1, 0, 0, EPS, 0, []⟩

def c6C2 : Result := ⟨1, 0, 0, 2 * EPS, 0, []⟩

def r7a : Result := ⟨1, 0, 0, 85, 0, []⟩

def r7b : Result := ⟨2, 0, 0, 85, 5, []⟩

def w999 : Submission := ⟨7, 999, 5, 14, 1, 50, 0, "d"⟩

def wGoodRec : ProblemRec := ⟨1, 1, "c", "n", 0, "A", 0, 10, some 100⟩

def wBadRec : ProblemRec := ⟨2, 1, "c2", "n2", 1, "A", 0, 10, some 50⟩

def wRecs : List ProblemRec := [wGoodRec, wBadRec]

/-! ### Association-list lemmas -/

theorem alook_upd_self {α β : Type} [DecidableEq α] (m : List (α × β)) (k : α) (v : β) :
    alook (upd m k v) k = some v := by
  induction m with
  | nil => simp [upd, alook]
  | cons e rest ih =>
    obtain ⟨k1, v1⟩ := e
    by_cases h : k = k1
    · subst h; simp [upd, alook]
    · simp [upd, alook, h, ih]

theorem alook_upd_ne {α β : Type} [DecidableEq α] (m : List (α × β)) (k k2 : α) (v : β)
    (h : k2 ≠ k) : alook (upd m k v) k2 = alook m k2 := by
  induction m with
  | nil => simp [upd, alook, h]
  | cons e rest ih =>
    obtain ⟨k1, v1⟩ := e
    by_cases hk : k = k1
    · subst hk; simp [upd, alook, h]
    · by_cases hk2 : k2 = k1
      · subst hk2; simp [upd, alook, hk]
      · simp [upd, alook, hk, hk2, ih]

theorem mem_upd {α β : Type} [DecidableEq α] (m : List (α × β)) (k : α) (v : β)
    (e : α × β) (he : e ∈ upd m k v) : e = (k, v) ∨ e ∈ m := by
  induction m with
  | nil => simp [upd] at he; simp [he]
  | cons e1 rest ih =>
    obtain ⟨k1, v1⟩ := e1
    by_cases hk : k = k1
    · subst hk
      simp [upd] at he
      rcases he with h | h
      · left; simp [h]
      · right; simp [h]
    · simp [upd, hk] at he
      rcases he with h | h
      · right; simp [h]
      · rcases ih h with h2 | h2
        · left; exact h2
        · right; simp [h2]

theorem upd_of_alook_none {α β : Type} [DecidableEq α] (m : List (α × β)) (k : α) (v : β)
    (h : alook m k = none) : upd m k v = m ++ [(k, v)] := by
  induction m with
  | nil => simp [upd]
  | cons e rest ih =>
    obtain ⟨k1, v1⟩ := e
    by_cases hk : k = k1
    · subst hk; simp [alook] at h
    · simp [alook, hk] at h
      simp [upd, hk, ih h]

theorem alook_mem {α β : Type} [DecidableEq α] (m : List (α × β)) (k : α) (v : β)
    (h : alook m k = some v) : (k, v) ∈ m := by
  induction m with
  | nil => simp [alook] at h
  | cons e rest ih =>
    obtain ⟨k1, v1⟩ := e
    by_cases hk : k = k1
    · subst hk
      simp [alook] at h
      simp [h]
    · simp [alook, hk] at h
      simp [ih h]

theorem countP_upd {α β : Type} [DecidableEq α] (P : α × β → Bool)
    (m : List (α × β)) (k : α) (v w : β) (h : alook m k = some w) :
    (upd m k v).countP P + (if P (k, w) then 1 else 0) =
      m.countP P + (if P (k, v) then 1 else 0) := by
  induction m with
  | nil => simp [alook] at h
  | cons e rest ih =>
    obtain ⟨k1, v1⟩ := e
    by_cases hk : k = k1
    · subst hk
      simp [alook] at h
      subst h
      simp [upd, List.countP_cons]
      omega
    · simp [alook, hk] at h
      have := ih h
      simp [upd, hk, List.countP_cons]
      omega

/-! ### State-machine step lemmas -/

theorem stepUP_frozen (prob : Problem) (sc : ℚ) (ts : Int) (up : UserProblem)
    (h : up.solved = FULLY_SOLVED) :
    stepUP prob sc ts up = { up with tries := up.tries + 1 } := by
  simp [stepUP, h]

theorem stepUP_solves (prob : Problem) (sc : ℚ) (ts : Int) (up : UserProblem)
    (h : up.solved ≠ FULLY_SOLVED) (h2 : |100 - sc| < EPS) :
    stepUP prob sc ts up =
      { up with tries := up.tries + 1, solved := FULLY_SOLVED, score := sc,
                date := ts, time := ts - prob.starttime } := by
  simp [stepUP, h, h2]

theorem stepUP_fails (prob : Problem) (sc : ℚ) (ts : Int) (up : UserProblem)
    (h : up.solved ≠ FULLY_SOLVED) (h2 : ¬ |100 - sc| < EPS) :
    stepUP prob sc ts up =
      { up with tries := up.tries + 1, solved := PART_SOLVED,
                failed_tries := up.failed_tries + 1, score := sc,
                date := ts, time := ts - prob.starttime } := by
  simp [stepUP, h, h2]

theorem stepUP_tries (prob : Problem) (sc : ℚ) (ts : Int) (up : UserProblem) :
    (stepUP prob sc ts up).tries = up.tries + 1 := by
  by_cases h : up.solved = FULLY_SOLVED
  · rw [stepUP_frozen prob sc ts up h]
  · by_cases h2 : |100 - sc| < EPS
    · rw [stepUP_solves prob sc ts up h h2]
    · rw [stepUP_fails prob sc ts up h h2]

theorem stepUP_solved_ne (prob : Problem) (sc : ℚ) (ts : Int) (up : UserProblem)
    (h : up.solved ≠ UNSOLVED) :
    (stepUP prob sc ts up).solved ≠ UNSOLVED ∨ up.solved = UNSOLVED := by
  by_cases hf : up.solved = FULLY_SOLVED
  · rw [stepUP_frozen prob sc ts up hf]; left; simpa [hf] using h
  · by_cases h2 : |100 - sc| < EPS
    · rw [stepUP_solves prob sc ts up hf h2]; left; simp [FULLY_SOLVED, UNSOLVED]
    · rw [stepUP_fails prob sc ts up hf h2]; left; simp [PART_SOLVED, UNSOLVED]

theorem stepUP_not_unsolved (prob : Problem) (sc : ℚ) (ts : Int) (up : UserProblem) :
    (stepUP prob sc ts up).solved ≠ UNSOLVED := by
  by_cases hf : up.solved = FULLY_SOLVED
  · rw [stepUP_frozen prob sc ts up hf]
    simp [hf, FULLY_SOLVED, UNSOLVED]
  · by_cases h2 : |100 - sc| < EPS
    · rw [stepUP_solves prob sc ts up hf h2]; simp [FULLY_SOLVED, UNSOLVED]
    · rw [stepUP_fails prob sc ts up hf h2]; simp [PART_SOLVED, UNSOLVED]

/-- `normScore` pins the solved test of line 370 to an exact equality:
after normalization, the score passes the within-EPS-of-100 test iff it
is exactly 100. -/
theorem norm_hundred (x : ℚ) : |100 - normScore x| < EPS ↔ normScore x = 100 := by
  unfold normScore
  by_cases h : |100 - x| < EPS
  · rw [if_pos h]
    norm_num [EPS]
  · rw [if_neg h]
    constructor
    · intro h2; exact absurd h2 h
    · intro h2
      rw [h2] at h
      exact absurd (by norm_num [EPS]) h

/-- Characterization of one submission-processing step when the user is
known and the problem index resolves (the body of lines 363-381). -/
theorem processSub_found (c : Catalog) (st : RState) (s : Submission) (prob : Problem)
    (hu : s.userid ∈ c.users)
    (hp : (c.problems[probIdx c s.problemid]? : Option Problem) = some prob) :
    processSub c st s =
      upd st (prob.pset, s.userid)
        (updRes prob (normScore s.score) s.timestamp s.problemid s.userid
          ((alook st (prob.pset, s.userid)).getD {})) := by
  unfold processSub
  rw [if_pos hu, hp]

theorem processSub_unknown_user (c : Catalog) (st : RState) (s : Submission)
    (hu : s.userid ∉ c.users) : processSub c st s = st := by
  unfold processSub
  rw [if_neg hu]

theorem processSub_no_problem (c : Catalog) (st : RState) (s : Submission)
    (hp : (c.problems[probIdx c s.problemid]? : Option Problem) = none) :
    processSub c st s = st := by
  unfold processSub
  by_cases hu : s.userid ∈ c.users
  · rw [if_pos hu, hp]
  · rw [if_neg hu]

/-! ### The aggregation-state invariant -/

theorem resCore_empty : ResCore {} := by
  refine ⟨rfl, rfl, rfl, by simp [List.countP_nil], by intro e he; simp at he⟩

theorem stInv_nil : StInv [] := by
  intro key res h
  simp [alook] at h

theorem resCore_step (prob : Problem) (sc : ℚ) (ts : Int) (pid uid : Int)
    (res0 : Result) (h0 : ResCore res0) :
    ResCore (updRes prob sc ts pid uid res0) := by
  unfold updRes
  obtain ⟨ht, hpe, hl, hn, hm⟩ := h0
  refine ⟨ht, hpe, hl, ?_, ?_⟩
  · show (if _ then res0.numsolved + 1 else res0.numsolved) = List.countP isFully (upd _ _ _)
    cases hup : alook res0.prob pid with
    | none =>
      simp only [hup, Option.getD_none]
      rw [upd_of_alook_none _ _ _ hup, List.countP_append]
      have hdflt : (({} : UserProblem).solved ≠ FULLY_SOLVED) := by decide
      by_cases h2 : |100 - sc| < EPS
      · have hs : isFully (pid, stepUP prob sc ts {}) = true := by
          rw [stepUP_solves _ _ _ _ hdflt h2]
          simp [isFully]
        rw [if_pos ⟨hdflt, h2⟩]
        simp [List.countP_cons, List.countP_nil, hs, hn]
      · have hs : isFully (pid, stepUP prob sc ts {}) = false := by
          rw [stepUP_fails _ _ _ _ hdflt h2]
          simp [isFully, PART_SOLVED, FULLY_SOLVED]
        rw [if_neg (by intro hc; exact h2 hc.2)]
        simp [List.countP_cons, List.countP_nil, hs, hn]
    | some w =>
      simp only [hup, Option.getD_some]
      have hcount := countP_upd isFully res0.prob pid (stepUP prob sc ts w) w hup
      by_cases hf : w.solved = FULLY_SOLVED
      · have hw : isFully (pid, w) = true := by simp [isFully, hf]
        have hs : isFully (pid, stepUP prob sc ts w) = true := by
          rw [stepUP_frozen _ _ _ _ hf]
          simp [isFully, hf]
        rw [hw, hs] at hcount
        rw [if_neg (by simp [hf])]
        simp at hcount
        omega
      · have hw : isFully (pid, w) = false := by
          unfold isFully
          simp [hf]
        by_cases h2 : |100 - sc| < EPS
        · have hs : isFully (pid, stepUP prob sc ts w) = true := by
            rw [stepUP_solves _ _ _ _ hf h2]
            simp [isFully]
          rw [hw, hs] at hcount
          rw [if_pos ⟨hf, h2⟩]
          simp at hcount
          omega
        · have hs : isFully (pid, stepUP prob sc ts w) = false := by
            rw [stepUP_fails _ _ _ _ hf h2]
            simp [isFully, PART_SOLVED, FULLY_SOLVED]
          rw [hw, hs] at hcount
          rw [if_neg (by intro hc; exact h2 hc.2)]
          simp at hcount
          omega
  · intro e he
    rcases mem_upd _ _ _ e he with h | h
    · subst h
      exact ⟨by rw [stepUP_tries]; omega, stepUP_not_unsolved _ _ _ _⟩
    · exact hm e h

theorem stInv_process (c : Catalog) (st : RState) (s : Submission) (h : StInv st) :
    StInv (processSub c st s) := by
  by_cases hu : s.userid ∈ c.users
  · cases hp : (c.problems[probIdx c s.problemid]? : Option Problem) with
    | none => rw [processSub_no_problem c st s hp]; exact h
    | some prob =>
      rw [processSub_found c st s prob hu hp]
      intro key res hres
      by_cases hkey : key = (prob.pset, s.userid)
      · subst hkey
        rw [alook_upd_self] at hres
        have hcore : ResCore ((alook st (prob.pset, s.userid)).getD {}) := by
          cases ha : alook st (prob.pset, s.userid) with
          | none => simpa [ha] using resCore_empty
          | some r => simpa [ha] using (h _ r ha).2
        injection hres with hres
        subst hres
        exact ⟨rfl, resCore_step prob (normScore s.score) s.timestamp s.problemid
          s.userid _ hcore⟩
      · rw [alook_upd_ne st _ key _ hkey] at hres
        exact h key res hres
  · rw [processSub_unknown_user c st s hu]; exact h

theorem stInv_foldl (c : Catalog) :
    ∀ (subs : List Submission) (st : RState), StInv st →
      StInv (subs.foldl (processSub c) st) := by
  intro subs
  induction subs with
  | nil => intro st h; exact h
  | cons s rest ih =>
    intro st h
    exact ih (processSub c st s) (stInv_process c st s h)

/-- Every Result the aggregation pass produces satisfies the invariant. -/
theorem stInv_aggregate (c : Catalog) (subs : List Submission) :
    StInv (aggregate c subs) :=
  stInv_foldl c subs [] stInv_nil

/-! ### Projection of the state onto one (user, problem) entry -/

theorem upAt_eq (c : Catalog) (st : RState) (u p : Int) (prob : Problem)
    (hp : (c.problems[probIdx c p]? : Option Problem) = some prob) :
    upAt c st u p = (alook st (prob.pset, u)).bind fun res => alook res.prob p := by
  unfold upAt
  rw [hp, Option.some_bind]

theorem upAt_nil (c : Catalog) (u p : Int) : upAt c [] u p = none := by
  unfold upAt
  cases hp : (c.problems[probIdx c p]? : Option Problem) with
  | none => rfl
  | some prob => rfl

theorem upAt_getD (c : Catalog) (u p : Int) (prob : Problem)
    (hp : (c.problems[probIdx c p]? : Option Problem) = some prob) (st : RState) :
    (upAt c st u p).getD {} =
      (alook ((alook st (prob.pset, u)).getD {}).prob p).getD {} := by
  rw [upAt_eq c st u p prob hp]
  cases ha : alook st (prob.pset, u) with
  | none => simp [alook]
  | some res => simp

theorem updRes_prob (prob : Problem) (sc : ℚ) (ts : Int) (pid uid : Int) (res0 : Result) :
    (updRes prob sc ts pid uid res0).prob =
      upd res0.prob pid (stepUP prob sc ts ((alook res0.prob pid).getD {})) := rfl

theorem upAt_step_match (c : Catalog) (st : RState) (s : Submission) (prob : Problem)
    (hu : s.userid ∈ c.users)
    (hp : (c.problems[probIdx c s.problemid]? : Option Problem) = some prob) :
    upAt c (processSub c st s) s.userid s.problemid =
      some (stepUP prob (normScore s.score) s.timestamp
        ((upAt c st s.userid s.problemid).getD {})) := by
  rw [upAt_eq c _ s.userid s.problemid prob hp]
  rw [processSub_found c st s prob hu hp]
  rw [alook_upd_self, Option.some_bind, updRes_prob, alook_upd_self]
  rw [upAt_getD c s.userid s.problemid prob hp st]

theorem upAt_step_other (c : Catalog) (st : RState) (s : Submission) (u p : Int)
    (hne : ¬(s.userid = u ∧ s.problemid = p)) :
    upAt c (processSub c st s) u p = upAt c st u p := by
  by_cases hu : s.userid ∈ c.users
  · cases hp2 : (c.problems[probIdx c s.problemid]? : Option Problem) with
    | none => rw [processSub_no_problem c st s hp2]
    | some sprob =>
      rw [processSub_found c st s sprob hu hp2]
      cases hp : (c.problems[probIdx c p]? : Option Problem) with
      | none => simp [upAt, hp]
      | some prob =>
        rw [upAt_eq c _ u p prob hp, upAt_eq c st u p prob hp]
        by_cases hkey : ((prob.pset, u) : String × Int) = (sprob.pset, s.userid)
        · have hu2 : u = s.userid := congrArg Prod.snd hkey
          have hpid : p ≠ s.problemid := fun hh => hne ⟨hu2.symm, hh.symm⟩
          rw [hkey, alook_upd_self, Option.some_bind, updRes_prob]
          rw [alook_upd_ne _ _ _ _ hpid]
          cases ha : alook st (sprob.pset, s.userid) with
          | none => simp [alook]
          | some res => simp
        · rw [alook_upd_ne st _ _ _ hkey]
  · rw [processSub_unknown_user c st s hu]

theorem upAt_foldl (c : Catalog) (u p : Int) (prob : Problem)
    (hu : u ∈ c.users) (hp : (c.problems[probIdx c p]? : Option Problem) = some prob) :
    ∀ (subs : List Submission) (st : RState),
      upAt c (subs.foldl (processSub c) st) u p =
        (subsFor u p subs).foldl
          (fun o s => some (stepUP prob (normScore s.score) s.timestamp (o.getD {})))
          (upAt c st u p) := by
  intro subs
  induction subs with
  | nil => intro st; simp [subsFor]
  | cons s rest ih =>
    intro st
    by_cases hmatch : s.userid = u ∧ s.problemid = p
    · obtain ⟨hm1, hm2⟩ := hmatch
      subst hm1
      subst hm2
      have hfil : subsFor s.userid s.problemid (s :: rest) =
          s :: subsFor s.userid s.problemid rest := by
        simp [subsFor, List.filter_cons]
      rw [hfil]
      simp only [List.foldl_cons]
      rw [ih (processSub c st s)]
      rw [upAt_step_match c st s prob hu hp]
    · have hfil : subsFor u p (s :: rest) = subsFor u p rest := by
        simp only [subsFor, List.filter_cons]
        rw [if_neg]
        simp [hmatch]
      rw [hfil]
      simp only [List.foldl_cons]
      rw [ih (processSub c st s)]
      rw [upAt_step_other c st s u p hmatch]

theorem upFold_nil (prob : Problem) (up : UserProblem) : upFold prob up [] = up := rfl

theorem upFold_cons (prob : Problem) (up : UserProblem) (s : Submission)
    (l : List Submission) :
    upFold prob up (s :: l) =
      upFold prob (stepUP prob (normScore s.score) s.timestamp up) l := rfl

theorem foldlO_some (prob : Problem) :
    ∀ (l : List Submission) (up : UserProblem),
      l.foldl (fun o s => some (stepUP prob (normScore s.score) s.timestamp (o.getD {})))
          (some up) =
        some (upFold prob up l) := by
  intro l
  induction l with
  | nil => intro up; rfl
  | cons s rest ih =>
    intro up
    simp only [List.foldl_cons, Option.getD_some]
    rw [ih]
    rfl

/-- The entry for (u, p) after a whole aggregation pass is exactly the
fold of the (u, p) submission subsequence through the state machine,
starting from the default UserProblem; absent when that subsequence is
empty. -/
theorem upAt_aggregate (c : Catalog) (u p : Int) (prob : Problem)
    (hu : u ∈ c.users) (hp : (c.problems[probIdx c p]? : Option Problem) = some prob)
    (subs : List Submission) :
    upAt c (aggregate c subs) u p =
      match subsFor u p subs with
      | [] => none
      | l => some (upFold prob {} l) := by
  unfold aggregate
  rw [upAt_foldl c u p prob hu hp subs [], upAt_nil]
  cases hsubs : subsFor u p subs with
  | nil => rfl
  | cons s rest =>
    simp only [List.foldl_cons, Option.getD_none]
    rw [foldlO_some]
    rfl

/-! ### Behaviour of the single-entry state machine over a trace -/

theorem upFold_frozen (prob : Problem) :
    ∀ (l : List Submission) (up : UserProblem), up.solved = FULLY_SOLVED →
      (upFold prob up l).solved = FULLY_SOLVED ∧
      (upFold prob up l).failed_tries = up.failed_tries ∧
      (upFold prob up l).score = up.score ∧
      (upFold prob up l).date = up.date ∧
      (upFold prob up l).time = up.time := by
  intro l
  induction l with
  | nil => intro up h; exact ⟨h, rfl, rfl, rfl, rfl⟩
  | cons s rest ih =>
    intro up h
    rw [upFold_cons, stepUP_frozen prob (normScore s.score) s.timestamp up h]
    exact ih { up with tries := up.tries + 1 } h

theorem upFold_failed (prob : Problem) :
    ∀ (l : List Submission) (up : UserProblem), up.solved ≠ FULLY_SOLVED →
      (upFold prob up l).failed_tries =
        up.failed_tries + (l.takeWhile (fun s => ¬ normScore s.score = 100)).length := by
  intro l
  induction l with
  | nil => intro up h; simp [upFold]
  | cons s rest ih =>
    intro up h
    rw [upFold_cons]
    by_cases h100 : normScore s.score = 100
    · have hlt : |100 - normScore s.score| < EPS := (norm_hundred s.score).mpr h100
      rw [stepUP_solves prob _ _ up h hlt]
      have hfrozen := upFold_frozen prob rest
        { up with tries := up.tries + 1, solved := FULLY_SOLVED,
                  score := normScore s.score, date := s.timestamp,
                  time := s.timestamp - prob.starttime } rfl
      rw [hfrozen.2.1]
      simp [List.takeWhile_cons, h100]
    · have hge : ¬ |100 - normScore s.score| < EPS :=
        fun hc => h100 ((norm_hundred s.score).mp hc)
      rw [stepUP_fails prob _ _ up h hge]
      rw [ih _ (by simp [PART_SOLVED, FULLY_SOLVED])]
      simp [List.takeWhile_cons, h100]
      omega

theorem upFold_partial (prob : Problem) :
    ∀ (l : List Submission) (s0 : Submission) (up : UserProblem),
      up.solved ≠ FULLY_SOLVED →
      (∀ s ∈ l ++ [s0], ¬ normScore s.score = 100) →
      (upFold prob up (l ++ [s0])).solved = PART_SOLVED ∧
      (upFold prob up (l ++ [s0])).score = normScore s0.score ∧
      (upFold prob up (l ++ [s0])).date = s0.timestamp ∧
      (upFold prob up (l ++ [s0])).time = s0.timestamp - prob.starttime := by
  intro l
  induction l with
  | nil =>
    intro s0 up h hall
    have h100 : ¬ normScore s0.score = 100 := hall s0 (by simp)
    have hge : ¬ |100 - normScore s0.score| < EPS :=
      fun hc => h100 ((norm_hundred s0.score).mp hc)
    rw [List.nil_append, upFold_cons, upFold_nil]
    rw [stepUP_fails prob _ _ up h hge]
    exact ⟨rfl, rfl, rfl, rfl⟩
  | cons s rest ih =>
    intro s0 up h hall
    have h100 : ¬ normScore s.score = 100 := hall s (by simp)
    have hge : ¬ |100 - normScore s.score| < EPS :=
      fun hc => h100 ((norm_hundred s.score).mp hc)
    rw [List.cons_append, upFold_cons]
    rw [stepUP_fails prob _ _ up h hge]
    refine ih s0 _ (by simp [PART_SOLVED, FULLY_SOLVED]) ?_
    intro x hx
    exact hall x (by simp at hx; simp [hx])

/-! ### The scoring fold as explicit sums and maxima -/

theorem scoreStep_prob (problems : List Problem) (res : Result) (j : Nat) :
    (scoreStep problems res j).prob = res.prob := by
  unfold scoreStep
  split
  next => rfl
  next prob h =>
    split
    next up h2 =>
      split
      next => rfl
      next => rfl
    next => rfl

theorem scoreStep_totalscore (problems : List Problem) (res : Result) (j : Nat) :
    (scoreStep problems res j).totalscore =
      res.totalscore + contribScore problems res.prob j := by
  unfold scoreStep contribScore
  split
  next h => simp [h]
  next prob h =>
    split
    next up h2 =>
      by_cases hs : up.solved ≠ UNSOLVED
      · simp [h, h2, hs]
      · simp [h, h2, hs]
    next h2 => simp [h, h2]

theorem scoreStep_penalty (problems : List Problem) (res : Result) (j : Nat) :
    (scoreStep problems res j).penalty =
      res.penalty + contribPen problems res.prob j := by
  unfold scoreStep contribPen
  split
  next h => simp [h]
  next prob h =>
    split
    next up h2 =>
      by_cases hs : up.solved ≠ UNSOLVED
      · simp [h, h2, hs]
      · simp [h, h2, hs]
    next h2 => simp [h, h2]

theorem scoreStep_last (problems : List Problem) (res : Result) (j : Nat) :
    (scoreStep problems res j).last_solved =
      (touchTime problems res.prob j).elim res.last_solved
        (fun t => max res.last_solved t) := by
  unfold scoreStep touchTime
  split
  next h => simp [h]
  next prob h =>
    split
    next up h2 =>
      by_cases hs : up.solved ≠ UNSOLVED
      · simp [h, h2, hs]
      · simp [h, h2, hs]
    next h2 => simp [h, h2]

theorem foldl_score_totalscore (problems : List Problem) :
    ∀ (vprob : List Nat) (res : Result),
      (vprob.foldl (scoreStep problems) res).totalscore =
        res.totalscore + (vprob.map (contribScore problems res.prob)).sum := by
  intro vprob
  induction vprob with
  | nil => intro res; simp
  | cons j rest ih =>
    intro res
    simp only [List.foldl_cons, List.map_cons, List.sum_cons]
    rw [ih (scoreStep problems res j), scoreStep_prob, scoreStep_totalscore]
    ring

theorem foldl_score_penalty (problems : List Problem) :
    ∀ (vprob : List Nat) (res : Result),
      (vprob.foldl (scoreStep problems) res).penalty =
        res.penalty + (vprob.map (contribPen problems res.prob)).sum := by
  intro vprob
  induction vprob with
  | nil => intro res; simp
  | cons j rest ih =>
    intro res
    simp only [List.foldl_cons, List.map_cons, List.sum_cons]
    rw [ih (scoreStep problems res j), scoreStep_prob, scoreStep_penalty]
    ring

theorem foldl_score_last (problems : List Problem) :
    ∀ (vprob : List Nat) (res : Result),
      (vprob.foldl (scoreStep problems) res).last_solved =
        (vprob.filterMap (touchTime problems res.prob)).foldl max res.last_solved := by
  intro vprob
  induction vprob with
  | nil => intro res; simp
  | cons j rest ih =>
    intro res
    simp only [List.foldl_cons, List.filterMap_cons]
    rw [ih (scoreStep problems res j), scoreStep_prob, scoreStep_last]
    cases ht : touchTime problems res.prob j with
    | none => simp
    | some t => simp

theorem scoreResult_totalscore (problems : List Problem) (vprob : List Nat) (res : Result) :
    (scoreResult problems vprob res).totalscore =
      res.totalscore + (vprob.map (contribScore problems res.prob)).sum := by
  unfold scoreResult
  exact foldl_score_totalscore problems vprob res

theorem scoreResult_last (problems : List Problem) (vprob : List Nat) (res : Result) :
    (scoreResult problems vprob res).last_solved =
      (vprob.filterMap (touchTime problems res.prob)).foldl max res.last_solved := by
  unfold scoreResult
  exact foldl_score_last problems vprob res

theorem scoreResult_penalty (problems : List Problem) (vprob : List Nat) (res : Result) :
    (scoreResult problems vprob res).penalty =
      res.penalty + (vprob.map (contribPen problems res.prob)).sum +
        (vprob.filterMap (touchTime problems res.prob)).foldl max res.last_solved := by
  unfold scoreResult
  show (vprob.foldl (scoreStep problems) res).penalty +
      (vprob.foldl (scoreStep problems) res).last_solved = _
  rw [foldl_score_penalty, foldl_score_last]

/-! ### Comparator lemmas -/

theorem rlt_irrefl (a : Result) : rlt a a = false := by
  unfold rlt
  rw [if_neg (by norm_num [EPS])]
  rw [if_neg (by simp), if_neg (by simp), if_neg (by simp)]
  simp

theorem rlt_asymm (a b : Result) (h : rlt a b = true) : rlt b a = false := by
  unfold rlt at h ⊢
  by_cases h1 : |a.totalscore - b.totalscore| > EPS
  · have h1b : |b.totalscore - a.totalscore| > EPS := by rwa [abs_sub_comm]
    rw [if_pos h1] at h
    rw [if_pos h1b]
    simp at h ⊢
    linarith
  · have h1b : ¬ |b.totalscore - a.totalscore| > EPS := by rwa [abs_sub_comm]
    rw [if_neg h1] at h
    rw [if_neg h1b]
    by_cases h2 : a.penalty ≠ b.penalty
    · rw [if_pos h2] at h
      rw [if_pos (Ne.symm h2)]
      simp at h ⊢
      omega
    · rw [if_neg h2] at h
      rw [if_neg (fun hc => h2 (Ne.symm hc))]
      by_cases h3 : a.last_solved ≠ b.last_solved
      · rw [if_pos h3] at h
        rw [if_pos (Ne.symm h3)]
        simp at h ⊢
        omega
      · rw [if_neg h3] at h
        rw [if_neg (fun hc => h3 (Ne.symm hc))]
        by_cases h4 : a.numsolved ≠ b.numsolved
        · rw [if_pos h4] at h
          rw [if_pos (Ne.symm h4)]
          simp at h ⊢
          omega
        · rw [if_neg h4] at h
          rw [if_neg (fun hc => h4 (Ne.symm hc))]
          simp at h ⊢
          omega

theorem rlt_total_of_ne (a b : Result) (h : a.userid ≠ b.userid) :
    rlt a b = true ∨ rlt b a = true := by
  unfold rlt
  by_cases h1 : |a.totalscore - b.totalscore| > EPS
  · have h1b : |b.totalscore - a.totalscore| > EPS := by rwa [abs_sub_comm]
    rw [if_pos h1, if_pos h1b]
    simp only [decide_eq_true_eq]
    rcases lt_trichotomy a.totalscore b.totalscore with hc | hc | hc
    · right; exact hc
    · exact absurd h1 (by rw [hc]; norm_num [EPS])
    · left; exact hc
  · have h1b : ¬ |b.totalscore - a.totalscore| > EPS := by rwa [abs_sub_comm]
    rw [if_neg h1, if_neg h1b]
    by_cases h2 : a.penalty ≠ b.penalty
    · rw [if_pos h2, if_pos (Ne.symm h2)]
      simp only [decide_eq_true_eq]
      omega
    · rw [if_neg h2, if_neg (fun hc => h2 (Ne.symm hc))]
      by_cases h3 : a.last_solved ≠ b.last_solved
      · rw [if_pos h3, if_pos (Ne.symm h3)]
        simp only [decide_eq_true_eq]
        omega
      · rw [if_neg h3, if_neg (fun hc => h3 (Ne.symm hc))]
        by_cases h4 : a.numsolved ≠ b.numsolved
        · rw [if_pos h4, if_pos (Ne.symm h4)]
          simp only [decide_eq_true_eq]
          omega
        · rw [if_neg h4, if_neg (fun hc => h4 (Ne.symm hc))]
          simp only [decide_eq_true_eq]
          omega

/-! ### Rank assignment -/

theorem rlt_false_score_bound (a b : Result) (h : rlt b a = false) :
    b.totalscore ≤ a.totalscore + EPS := by
  unfold rlt at h
  by_cases h1 : |b.totalscore - a.totalscore| > EPS
  · rw [if_pos h1] at h
    simp at h
    have hpos : (0 : ℚ) < EPS := by norm_num [EPS]
    linarith
  · push_neg at h1
    have hb := abs_le.mp h1
    linarith [hb.2]

theorem ranksFrom_eq_spec :
    ∀ (rest : List Result) (a : Result) (rank i : Nat),
      List.Chain' (fun x y => rlt y x = false) (a :: rest) →
      ranksFrom a.totalscore rank i rest = specRanksFrom a.totalscore rank i rest := by
  intro rest
  induction rest with
  | nil => intro a rank i h; rfl
  | cons b rest2 ih =>
    intro a rank i h
    have hchain := List.chain'_cons.mp h
    have hb := rlt_false_score_bound a b hchain.1
    have hcond : (b.totalscore < a.totalscore - EPS) ↔
        ¬(|b.totalscore - a.totalscore| ≤ EPS) := by
      constructor
      · intro hc habs
        have := (abs_le.mp habs).1
        linarith
      · intro hc
        by_contra hc2
        push_neg at hc2
        apply hc
        rw [abs_le]
        constructor
        · linarith
        · linarith
    simp only [ranksFrom, specRanksFrom]
    by_cases hc : b.totalscore < a.totalscore - EPS
    · rw [if_pos hc, if_neg (hcond.mp hc)]
      rw [ih b (i + 1) (i + 1) hchain.2]
    · rw [if_neg hc, if_pos (by by_contra hx; exact hc (hcond.mpr hx))]
      rw [ih b rank (i + 1) hchain.2]

theorem ranks_eq_specRanks (rows : List Result)
    (h : List.Chain' (fun x y => rlt y x = false) rows) :
    ranks rows = specRanks rows := by
  cases rows with
  | nil => rfl
  | cons r rest =>
    unfold ranks
    simp only [ranksFrom, specRanks]
    have h1 : (if r.totalscore < 0 - EPS then 0 + 1 else 1) = 1 := by
      split
      · rfl
      · rfl
    rw [h1, ranksFrom_eq_spec rest r 1 1 h]

/-! ### Problem-record loading lemmas -/

theorem parseProblem_isOk (r : ProblemRec) (pos : Nat) (h : validRec r) :
    ∃ p, parseProblem r pos = .ok p := by
  obtain ⟨h1, h2⟩ := h
  cases hp : r.pointsField with
  | none => exact absurd hp h2
  | some pts =>
    refine ⟨⟨r.id, r.timelimit, r.opt, r.pset, r.starttime, r.endtime, pts,
      r.code, r.name⟩, ?_⟩
    unfold parseProblem
    rw [if_neg (by simp [h1]), hp]

theorem parseProblem_valid (r : ProblemRec) (pos : Nat) (p : Problem)
    (h : parseProblem r pos = .ok p) : validRec r := by
  unfold parseProblem at h
  by_cases h1 : r.opt ≠ 0
  · rw [if_pos h1] at h
    exact absurd h (by simp)
  · rw [if_neg h1] at h
    cases hp : r.pointsField with
    | none =>
      rw [hp] at h
      exact absurd h (by simp)
    | some pts => exact ⟨of_not_not h1, by simp [hp]⟩

theorem parseProblem_err (r : ProblemRec) (pos : Nat) (h : ¬ validRec r) :
    parseProblem r pos = .error (recError r pos) := by
  unfold parseProblem recError
  by_cases h1 : r.opt ≠ 0
  · rw [if_pos h1, if_pos h1]
  · rw [if_neg h1, if_neg h1]
    cases hp : r.pointsField with
    | some pts => exact absurd ⟨of_not_not h1, by simp [hp]⟩ h
    | none => rfl

theorem loadAux_ok :
    ∀ (recs : List ProblemRec) (pos : Nat), (∀ r ∈ recs, validRec r) →
      ∃ ps, loadProblemsAux pos recs = .ok ps := by
  intro recs
  induction recs with
  | nil => intro pos h; exact ⟨[], rfl⟩
  | cons r rest ih =>
    intro pos h
    obtain ⟨p, hp⟩ := parseProblem_isOk r pos (h r (by simp))
    obtain ⟨ps, hps⟩ := ih (pos + 1) (fun x hx => h x (by simp [hx]))
    refine ⟨p :: ps, ?_⟩
    unfold loadProblemsAux
    rw [hp, hps]

theorem loadAux_valid :
    ∀ (recs : List ProblemRec) (pos : Nat) (ps : List Problem),
      loadProblemsAux pos recs = .ok ps → ∀ r ∈ recs, validRec r := by
  intro recs
  induction recs with
  | nil => intro pos ps h r hr; simp at hr
  | cons r rest ih =>
    intro pos ps h x hx
    unfold loadProblemsAux at h
    cases hp : parseProblem r pos with
    | error e =>
      rw [hp] at h
      exact absurd h (by simp)
    | ok p =>
      rw [hp] at h
      cases hrest : loadProblemsAux (pos + 1) rest with
      | error e =>
        rw [hrest] at h
        exact absurd h (by simp)
      | ok ps2 =>
        rcases List.mem_cons.mp hx with hx1 | hx1
        · subst hx1
          exact parseProblem_valid x pos p hp
        · exact ih (pos + 1) ps2 hrest x hx1

theorem loadAux_err :
    ∀ (pre : List ProblemRec) (pos : Nat) (r : ProblemRec) (rest : List ProblemRec),
      (∀ x ∈ pre, validRec x) → ¬ validRec r →
      loadProblemsAux pos (pre ++ r :: rest) =
        .error (recError r (pos + pre.length)) := by
  intro pre
  induction pre with
  | nil =>
    intro pos r rest hpre hr
    rw [List.nil_append]
    unfold loadProblemsAux
    rw [parseProblem_err r pos hr]
    simp
  | cons x pre2 ih =>
    intro pos r rest hpre hr
    rw [List.cons_append]
    unfold loadProblemsAux
    obtain ⟨p, hp⟩ := parseProblem_isOk x pos (hpre x (by simp))
    rw [hp, ih (pos + 1) r rest (fun y hy => hpre y (by simp [hy])) hr]
    have harith : pos + 1 + pre2.length = pos + (pre2.length + 1) := by omega
    rw [harith]
    simp [List.length_cons]

/-! ### Witness inputs: a one-problem, one-user catalog and some
submissions -/

/-! ### Evaluation lemmas for concrete scores (the kernel does not
reduce rational arithmetic, so these replace decidability) -/

theorem test_low (x : ℚ) (h : x ≤ 99) : ¬ |100 - x| < EPS := by
  intro hc
  rw [abs_of_nonneg (by linarith : (0 : ℚ) ≤ 100 - x)] at hc
  have hEPS : EPS ≤ 1 := by norm_num [EPS]
  linarith

theorem norm_low (x : ℚ) (h : x ≤ 99) : normScore x = x := by
  unfold normScore
  rw [if_neg (test_low x h)]

theorem norm_low_ne (x : ℚ) (h : x ≤ 99) : ¬ normScore x = 100 := by
  rw [norm_low x h]
  intro hc
  rw [hc] at h
  norm_num at h

theorem test_hundred : |100 - (100 : ℚ)| < EPS := by
  norm_num [EPS]

theorem norm_hundred_eq : normScore (100 : ℚ) = 100 := by
  unfold normScore
  rw [if_pos test_hundred]

/-- Overwrite behaviour of one step while not fully solved. -/
theorem stepUP_overwrite (prob : Problem) (sc : ℚ) (ts : Int) (up : UserProblem)
    (h : up.solved ≠ FULLY_SOLVED) :
    (stepUP prob sc ts up).score = sc ∧ (stepUP prob sc ts up).date = ts ∧
      (stepUP prob sc ts up).time = ts - prob.starttime := by
  by_cases h2 : |100 - sc| < EPS
  · rw [stepUP_solves prob sc ts up h h2]
    exact ⟨rfl, rfl, rfl⟩
  · rw [stepUP_fails prob sc ts up h h2]
    exact ⟨rfl, rfl, rfl⟩

/-- C1: the first submission whose epsilon-normalized score equals 100
transitions the UserProblem to FullySolved and increments the Result's
solved-problem counter; this happens exactly once per (user, problem):
numsolved always equals the count of fully solved entries of the prob
map; and once fully solved, a further submission changes only the try
count, leaving score, date and time-offset frozen. -/
theorem claim1_full_solve_once (c : Catalog) (st : RState) (s : Submission)
    (prob : Problem) (subs : List Submission)
    (hu : s.userid ∈ c.users)
    (hp : (c.problems[probIdx c s.problemid]? : Option Problem) = some prob) :
    (((upAt c st s.userid s.problemid).getD {}).solved ≠ FULLY_SOLVED →
      normScore s.score = 100 →
      ((upAt c (processSub c st s) s.userid s.problemid).getD {}).solved =
          FULLY_SOLVED ∧
        ((upAt c (processSub c st s) s.userid s.problemid).getD {}).tries =
          ((upAt c st s.userid s.problemid).getD {}).tries + 1 ∧
        ((alook (processSub c st s) (prob.pset, s.userid)).getD {}).numsolved =
          ((alook st (prob.pset, s.userid)).getD {}).numsolved + 1) ∧
    (∀ (sc : ℚ) (ts : Int) (up : UserProblem), up.solved = FULLY_SOLVED →
      stepUP prob sc ts up = { up with tries := up.tries + 1 }) ∧
    (∀ key res, alook (aggregate c subs) key = some res →
      res.numsolved = res.prob.countP isFully) := by
  refine ⟨?_, ?_, ?_⟩
  · intro hns h100
    have hlt : |100 - normScore s.score| < EPS := (norm_hundred s.score).mpr h100
    rw [upAt_step_match c st s prob hu hp]
    simp only [Option.getD_some]
    rw [stepUP_solves prob (normScore s.score) s.timestamp _ hns hlt]
    refine ⟨rfl, rfl, ?_⟩
    have hns2 := hns
    rw [upAt_getD c s.userid s.problemid prob hp st] at hns2
    rw [processSub_found c st s prob hu hp, alook_upd_self]
    simp only [Option.getD_some]
    unfold updRes
    rw [if_pos ⟨hns2, hlt⟩]
  · intro sc ts up hf
    exact stepUP_frozen prob sc ts up hf
  · intro key res h
    obtain ⟨-, -, -, -, hn, -⟩ := stInv_aggregate c subs key res h
    exact hn

/-- Witness for C1: user 7 submits score 100 on problem 1 over the empty
state; the entry turns FullySolved with one try and numsolved goes from
0 to 1. -/
theorem claim1_full_solve_once_witness :
    ((upAt wCat (processSub wCat [] wSub100) 7 1).getD {}).solved = FULLY_SOLVED ∧
    ((upAt wCat (processSub wCat [] wSub100) 7 1).getD {}).tries =
      ((upAt wCat ([] : RState) 7 1).getD {}).tries + 1 ∧
    ((alook (processSub wCat [] wSub100) ("A", 7)).getD {}).numsolved =
      ((alook ([] : RState) ("A", 7)).getD {}).numsolved + 1 :=
  (claim1_full_solve_once wCat [] wSub100 wProb [] (by decide) rfl).1
    (by decide) norm_hundred_eq

/-- C2: while a (user, problem) pair is not fully solved, processing a
submission overwrites the recorded score, date and time-offset with that
submission's (normalized) values; consequently a trace of submissions
that never reach 100 ends PartiallySolved with the last submission's
score recorded and every submission counted as a failed try. -/
theorem claim2_latest_overwrites (c : Catalog) (st : RState) (s : Submission)
    (prob : Problem) (l : List Submission) (s0 : Submission)
    (hu : s.userid ∈ c.users)
    (hp : (c.problems[probIdx c s.problemid]? : Option Problem) = some prob)
    (hns : ((upAt c st s.userid s.problemid).getD {}).solved ≠ FULLY_SOLVED) :
    (((upAt c (processSub c st s) s.userid s.problemid).getD {}).score =
        normScore s.score ∧
      ((upAt c (processSub c st s) s.userid s.problemid).getD {}).date =
        s.timestamp ∧
      ((upAt c (processSub c st s) s.userid s.problemid).getD {}).time =
        s.timestamp - prob.starttime) ∧
    ((∀ x ∈ l ++ [s0], ¬ normScore x.score = 100) →
      (upFold prob {} (l ++ [s0])).solved = PART_SOLVED ∧
      (upFold prob {} (l ++ [s0])).score = normScore s0.score ∧
      (upFold prob {} (l ++ [s0])).failed_tries = (l ++ [s0]).length) := by
  constructor
  · rw [upAt_step_match c st s prob hu hp]
    simp only [Option.getD_some]
    exact stepUP_overwrite prob (normScore s.score) s.timestamp _ hns
  · intro hall
    have hpart := upFold_partial prob l s0 {} (by decide) hall
    refine ⟨hpart.1, hpart.2.1, ?_⟩
    have hfail := upFold_failed prob (l ++ [s0]) {} (by decide)
    rw [hfail]
    have htw : (l ++ [s0]).takeWhile (fun s => ¬ normScore s.score = 100) = l ++ [s0] := by
      rw [List.takeWhile_eq_self_iff]
      intro x hx
      simpa using hall x hx
    rw [htw]
    simp

/-- Witness for C2: user 7 submits 40 then 70 on problem 1; the first
submission records score 40, and the 40-then-70 trace ends
PartiallySolved with score 70 and 2 failed tries. -/
theorem claim2_latest_overwrites_witness :
    ((((upAt wCat (processSub wCat [] wSub40) 7 1).getD {}).score =
        normScore wSub40.score ∧
      (((upAt wCat (processSub wCat [] wSub40) 7 1).getD {})).date =
        wSub40.timestamp ∧
      (((upAt wCat (processSub wCat [] wSub40) 7 1).getD {})).time =
        wSub40.timestamp - wProb.starttime) ∧
    ((∀ x ∈ [wSub40] ++ [wSub70], ¬ normScore x.score = 100) →
      (upFold wProb {} ([wSub40] ++ [wSub70])).solved = PART_SOLVED ∧
      (upFold wProb {} ([wSub40] ++ [wSub70])).score = normScore wSub70.score ∧
      (upFold wProb {} ([wSub40] ++ [wSub70])).failed_tries =
        ([wSub40] ++ [wSub70]).length)) ∧
    normScore wSub70.score = 70 ∧ ([wSub40] ++ [wSub70]).length = 2 :=
  ⟨claim2_latest_overwrites wCat [] wSub40 wProb [wSub40] wSub70
      (by decide) rfl (by decide),
    norm_low 70 (by norm_num), rfl⟩

/-- C3: after aggregation, a (user, problem) entry's failed_tries equals
the number of its submissions, in input order, strictly before its first
100-score submission (all of which score below 100), or all of its
submissions when none reaches 100. -/
theorem claim3_failed_tries (c : Catalog) (subs : List Submission) (u p : Int)
    (prob : Problem) (up : UserProblem)
    (hu : u ∈ c.users)
    (hp : (c.problems[probIdx c p]? : Option Problem) = some prob)
    (hup : upAt c (aggregate c subs) u p = some up) :
    up.failed_tries =
      ((subsFor u p subs).takeWhile (fun s => ¬ normScore s.score = 100)).length := by
  rw [upAt_aggregate c u p prob hu hp subs] at hup
  cases hsubs : subsFor u p subs with
  | nil =>
    rw [hsubs] at hup
    exact Option.noConfusion hup
  | cons s rest =>
    rw [hsubs] at hup
    have hup2 : upFold prob {} (s :: rest) = up := Option.some.inj hup
    have h3 := upFold_failed prob (s :: rest) ({} : UserProblem) (by decide)
    rw [← hup2, h3]
    simp

/-- Witness for C3: submissions scoring 60, 100, 40 for (7, 1);
failed_tries of the final entry is 1: only the pre-100 submission
counts. -/
theorem claim3_failed_tries_witness :
    (⟨FULLY_SOLVED, 100, 3, 1, 30, 30⟩ : UserProblem).failed_tries =
      ((subsFor 7 1 wSubs3).takeWhile
        (fun s => ¬ normScore s.score = 100)).length ∧
    ((subsFor 7 1 wSubs3).takeWhile
        (fun s => ¬ normScore s.score = 100)).length = 1 := by
  have h60 : stepUP wProb (normScore wSub60.score) wSub60.timestamp {} =
      ⟨PART_SOLVED, 60, 1, 1, 10, 10⟩ := by
    rw [show wSub60.score = (60 : ℚ) from rfl, norm_low 60 (by norm_num)]
    rw [stepUP_fails wProb 60 wSub60.timestamp {} (by decide)
      (test_low 60 (by norm_num))]
    rfl
  have h100 : stepUP wProb (normScore wSub100.score)
      wSub100.timestamp (⟨PART_SOLVED, 60, 1, 1, 10, 10⟩ : UserProblem) =
      ⟨FULLY_SOLVED, 100, 2, 1, 30, 30⟩ := by
    rw [show wSub100.score = (100 : ℚ) from rfl, norm_hundred_eq]
    rw [stepUP_solves wProb 100 wSub100.timestamp _ (by decide) test_hundred]
    rfl
  have h40 : stepUP wProb (normScore wSub40.score) wSub40.timestamp
      (⟨FULLY_SOLVED, 100, 2, 1, 30, 30⟩ : UserProblem) =
      ⟨FULLY_SOLVED, 100, 3, 1, 30, 30⟩ := by
    rw [stepUP_frozen wProb _ _ _ (by decide)]
  have hfil : subsFor 7 1 wSubs3 = wSubs3 := by decide
  have hagg : upAt wCat (aggregate wCat wSubs3) 7 1 =
      some ⟨FULLY_SOLVED, 100, 3, 1, 30, 30⟩ := by
    rw [upAt_aggregate wCat 7 1 wProb (by decide) rfl wSubs3, hfil]
    show some (upFold wProb {} wSubs3) = _
    rw [show wSubs3 = [wSub60, wSub100, wSub40] from rfl]
    rw [upFold_cons, h60, upFold_cons, h100, upFold_cons, h40, upFold_nil]
  have htail : ((subsFor 7 1 wSubs3).takeWhile
      (fun s => ¬ normScore s.score = 100)).length = 1 := by
    rw [hfil, show wSubs3 = [wSub60, wSub100, wSub40] from rfl]
    rw [List.takeWhile_cons]
    rw [if_pos (by simpa using norm_low_ne 60 (by norm_num) :
      (decide ¬normScore wSub60.score = 100) = true)]
    rw [List.takeWhile_cons]
    rw [if_neg (by simp [norm_hundred_eq, show wSub100.score = (100 : ℚ) from rfl] :
      ¬ (decide ¬normScore wSub100.score = 100) = true)]
    rfl
  exact ⟨claim3_failed_tries wCat wSubs3 7 1 wProb _ (by decide) rfl hagg, htail⟩

/-! ### C10, C4, C5: invariants of touched entries and the scoring sums -/

theorem contrib_eval (problems : List Problem) (pm : List (Int × UserProblem)) (j : Nat)
    (prob : Problem) (up : UserProblem)
    (hj : (problems[j]? : Option Problem) = some prob)
    (hup : alook pm prob.id = some up)
    (hs : up.solved ≠ UNSOLVED) :
    contribScore problems pm j = prob.points * (up.score / 100) := by
  unfold contribScore
  split
  next h => rw [h] at hj; exact Option.noConfusion hj
  next prob2 h =>
    rw [h] at hj
    injection hj with hj
    subst hj
    split
    next up2 h2 =>
      rw [h2] at hup
      injection hup with hup
      subst hup
      rw [if_pos hs]
    next h2 => rw [h2] at hup; exact Option.noConfusion hup

theorem wAgg60_eq : aggregate wCat [wSub60] = [(("A", 7), wRes60)] := by
  show processSub wCat [] wSub60 = _
  rw [processSub_found wCat [] wSub60 wProb (by decide) rfl]
  show [(("A", 7),
    updRes wProb (normScore wSub60.score) wSub60.timestamp 1 7 ({} : Result))] = _
  have hstep : updRes wProb (normScore wSub60.score) wSub60.timestamp 1 7
      ({} : Result) = wRes60 := by
    unfold updRes
    rw [show wSub60.score = (60 : ℚ) from rfl, norm_low 60 (by norm_num)]
    rw [show (alook ({} : Result).prob 1).getD ({} : UserProblem) = {} from rfl]
    rw [stepUP_fails wProb 60 wSub60.timestamp {} (by decide)
      (test_low 60 (by norm_num))]
    rw [if_neg (fun hc => test_low 60 (by norm_num) hc.2)]
    rfl
  rw [hstep]

/-- C10: after aggregation, every UserProblem entry present in a
Result's prob map has at least one try and is never Unsolved; hence any
present entry passes the non-Unsolved guard of the scoring loop and
contributes its scaled score. -/
theorem claim10_touched_entries (c : Catalog) (subs : List Submission)
    (key : String × Int) (res : Result)
    (h : alook (aggregate c subs) key = some res) :
    (∀ e ∈ res.prob, 1 ≤ e.2.tries ∧ e.2.solved ≠ UNSOLVED) ∧
    (∀ (j : Nat) (prob : Problem) (up : UserProblem),
      (c.problems[j]? : Option Problem) = some prob →
      alook res.prob prob.id = some up →
      contribScore c.problems res.prob j = prob.points * (up.score / 100)) := by
  obtain ⟨-, -, -, -, -, hm⟩ := stInv_aggregate c subs key res h
  refine ⟨hm, ?_⟩
  intro j prob up hj hup
  exact contrib_eval c.problems res.prob j prob up hj hup
    (hm (prob.id, up) (alook_mem res.prob prob.id up hup)).2

/-- Witness for C10 at the one-submission aggregation: the touched entry
has one try, is PartiallySolved, and contributes 100 × 60/100. -/
theorem claim10_touched_entries_witness :
    (1 ≤ wUp60.tries ∧ wUp60.solved ≠ UNSOLVED) ∧
    contribScore wCat.problems wRes60.prob 0 = wProb.points * (wUp60.score / 100) := by
  have h := claim10_touched_entries wCat [wSub60] ("A", 7) wRes60
    (by rw [wAgg60_eq]; rfl)
  exact ⟨h.1 (1, wUp60) (by decide), h.2 0 wProb wUp60 rfl rfl⟩

/-- C4: for every aggregated Result, the ranking phase's total score is
the sum, over the set's problem indices, of points × score/100 for
problems whose entry exists and is not Unsolved; absent entries
contribute 0. -/
theorem claim4_totalscore (c : Catalog) (subs : List Submission)
    (key : String × Int) (res : Result) (vprob : List Nat)
    (h : alook (aggregate c subs) key = some res) :
    (scoreResult c.problems vprob res).totalscore =
      (vprob.map (contribScore c.problems res.prob)).sum := by
  obtain ⟨-, ht, -, -, -, -⟩ := stInv_aggregate c subs key res h
  rw [scoreResult_totalscore, ht, zero_add]

/-- Witness for C4: one problem worth 100 points with a 60-score entry;
the total is the single contribution, which evaluates to 60. -/
theorem claim4_totalscore_witness :
    (scoreResult wCat.problems [0] wRes60).totalscore =
      (([0] : List Nat).map (contribScore wCat.problems wRes60.prob)).sum ∧
    (([0] : List Nat).map (contribScore wCat.problems wRes60.prob)).sum = 60 := by
  constructor
  · exact claim4_totalscore wCat [wSub60] ("A", 7) wRes60 [0] (by rw [wAgg60_eq]; rfl)
  · have h1 := contrib_eval wCat.problems wRes60.prob 0 wProb wUp60 rfl rfl (by decide)
    simp only [List.map_cons, List.map_nil, List.sum_cons, List.sum_nil, h1]
    show wProb.points * (wUp60.score / 100) + 0 = 60
    rw [show wProb.points = (100 : ℚ) from rfl, show wUp60.score = (60 : ℚ) from rfl]
    norm_num

/-- C5: for every aggregated Result, the ranking phase's penalty is the
sum of failed_tries × 10 × 60 seconds over the set's touched,
non-Unsolved entries, plus last_solved, where last_solved is the maximum
of those entries' time-offsets starting from 0, folded into the penalty
exactly once after the per-problem loop. -/
theorem claim5_penalty (c : Catalog) (subs : List Submission)
    (key : String × Int) (res : Result) (vprob : List Nat)
    (h : alook (aggregate c subs) key = some res) :
    (scoreResult c.problems vprob res).penalty =
      (vprob.map (contribPen c.problems res.prob)).sum +
        (vprob.filterMap (touchTime c.problems res.prob)).foldl max 0 ∧
    (scoreResult c.problems vprob res).last_solved =
      (vprob.filterMap (touchTime c.problems res.prob)).foldl max 0 := by
  obtain ⟨-, -, hpe, hl, -, -⟩ := stInv_aggregate c subs key res h
  constructor
  · rw [scoreResult_penalty, hpe, hl, zero_add]
  · rw [scoreResult_last, hl]

/-- Witness for C5: the single 60-score entry yields one failed try, so
penalty is 600 seconds plus the time-offset 10. -/
theorem claim5_penalty_witness :
    ((scoreResult wCat.problems [0] wRes60).penalty =
      (([0] : List Nat).map (contribPen wCat.problems wRes60.prob)).sum +
        (([0] : List Nat).filterMap (touchTime wCat.problems wRes60.prob)).foldl
          max 0 ∧
    (scoreResult wCat.problems [0] wRes60).last_solved =
      (([0] : List Nat).filterMap (touchTime wCat.problems wRes60.prob)).foldl
        max 0) ∧
    (([0] : List Nat).map (contribPen wCat.problems wRes60.prob)).sum = 600 ∧
    (([0] : List Nat).filterMap (touchTime wCat.problems wRes60.prob)).foldl
      max 0 = 10 :=
  ⟨claim5_penalty wCat [wSub60] ("A", 7) wRes60 [0] (by rw [wAgg60_eq]; rfl),
    by decide, by decide⟩

/-! ### C6: the comparator is not a strict weak ordering -/

theorem eps_pos : (0 : ℚ) < EPS := by norm_num [EPS]

theorem rlt_AB : rlt c6A c6B = true := by
  have h1 : ¬ |c6A.totalscore - c6B.totalscore| > EPS := by
    show ¬ |(0 : ℚ) - EPS| > EPS
    rw [zero_sub, abs_neg, abs_of_pos eps_pos]
    exact lt_irrefl EPS
  have h2 : c6A.penalty ≠ c6B.penalty := by decide
  unfold rlt
  rw [if_neg h1, if_pos h2]
  rfl

theorem rlt_BC : rlt c6B c6C = true := by
  have h1 : ¬ |c6B.totalscore - c6C.totalscore| > EPS := by
    show ¬ |EPS - 2 * EPS| > EPS
    rw [show EPS - 2 * EPS = -EPS by ring, abs_neg, abs_of_pos eps_pos]
    exact lt_irrefl EPS
  have h2 : c6B.penalty ≠ c6C.penalty := by decide
  unfold rlt
  rw [if_neg h1, if_pos h2]
  rfl

theorem rlt_AC : rlt c6A c6C = false := by
  have h1 : |c6A.totalscore - c6C.totalscore| > EPS := by
    show |(0 : ℚ) - 2 * EPS| > EPS
    rw [zero_sub, abs_neg, abs_of_pos (by linarith [eps_pos] : (0 : ℚ) < 2 * EPS)]
    linarith [eps_pos]
  unfold rlt
  rw [if_pos h1]
  exact decide_eq_false (by show ¬ (0 : ℚ) > 2 * EPS; linarith [eps_pos])

theorem rlt_A2B2 : rlt c6A2 c6B2 = false := by
  have h1 : ¬ |c6A2.totalscore - c6B2.totalscore| > EPS := by
    show ¬ |(0 : ℚ) - EPS| > EPS
    rw [zero_sub, abs_neg, abs_of_pos eps_pos]
    exact lt_irrefl EPS
  unfold rlt
  rw [if_neg h1, if_neg (by decide), if_neg (by decide), if_neg (by decide)]
  rfl

theorem rlt_B2A2 : rlt c6B2 c6A2 = false := by
  have h1 : ¬ |c6B2.totalscore - c6A2.totalscore| > EPS := by
    show ¬ |EPS - (0 : ℚ)| > EPS
    rw [sub_zero, abs_of_pos eps_pos]
    exact lt_irrefl EPS
  unfold rlt
  rw [if_neg h1, if_neg (by decide), if_neg (by decide), if_neg (by decide)]
  rfl

theorem rlt_B2C2 : rlt c6B2 c6C2 = false := by
  have h1 : ¬ |c6B2.totalscore - c6C2.totalscore| > EPS := by
    show ¬ |EPS - 2 * EPS| > EPS
    rw [show EPS - 2 * EPS = -EPS by ring, abs_neg, abs_of_pos eps_pos]
    exact lt_irrefl EPS
  unfold rlt
  rw [if_neg h1, if_neg (by decide), if_neg (by decide), if_neg (by decide)]
  rfl

theorem rlt_C2B2 : rlt c6C2 c6B2 = false := by
  have h1 : ¬ |c6C2.totalscore - c6B2.totalscore| > EPS := by
    show ¬ |2 * EPS - EPS| > EPS
    rw [show 2 * EPS - EPS = EPS by ring, abs_of_pos eps_pos]
    exact lt_irrefl EPS
  unfold rlt
  rw [if_neg h1, if_neg (by decide), if_neg (by decide), if_neg (by decide)]
  rfl

theorem rlt_C2A2 : rlt c6C2 c6A2 = true := by
  have h1 : |c6C2.totalscore - c6A2.totalscore| > EPS := by
    show |2 * EPS - (0 : ℚ)| > EPS
    rw [sub_zero, abs_of_pos (by linarith [eps_pos] : (0 : ℚ) < 2 * EPS)]
    linarith [eps_pos]
  unfold rlt
  rw [if_pos h1]
  exact decide_eq_true (by show (2 * EPS : ℚ) > 0; linarith [eps_pos])

/-- C6 counterexample: the comparator is not transitive (Results with
total scores 0, EPS, 2·EPS and increasing penalties satisfy A < B and
B < C but not A < C), and its incomparability relation is not an
equivalence (same scores with all tie-break keys equal give A2 ~ B2 and
B2 ~ C2 but C2 < A2), so it is not a strict weak ordering as the claim
states. -/
theorem claim6_counterexample :
    rlt c6A c6B = true ∧ rlt c6B c6C = true ∧ rlt c6A c6C = false ∧
    rlt c6A2 c6B2 = false ∧ rlt c6B2 c6A2 = false ∧
    rlt c6B2 c6C2 = false ∧ rlt c6C2 c6B2 = false ∧ rlt c6C2 c6A2 = true :=
  ⟨rlt_AB, rlt_BC, rlt_AC, rlt_A2B2, rlt_B2A2, rlt_B2C2, rlt_C2B2, rlt_C2A2⟩

/-- C6 amended: the comparator keys are total score descending with EPS
tolerance, then penalty, last_solved, solved-count, user id; it is
irreflexive and asymmetric, and any two Results with distinct user ids
are comparable; but it is not transitive (hence not a strict weak
ordering) because epsilon-closeness of scores is not transitive. -/
theorem claim6_amended (a b : Result) :
    rlt a a = false ∧ (rlt a b = true → rlt b a = false) ∧
      (a.userid ≠ b.userid → rlt a b = true ∨ rlt b a = true) :=
  ⟨rlt_irrefl a, rlt_asymm a b, rlt_total_of_ne a b⟩

/-- Witness for the amended C6 at two concrete Results. -/
theorem claim6_amended_witness :
    rlt c6A c6A = false ∧ rlt c6B c6A = false ∧
      (rlt c6A c6B = true ∨ rlt c6B c6A = true) :=
  ⟨(claim6_amended c6A c6B).1, (claim6_amended c6A c6B).2.1 rlt_AB,
    (claim6_amended c6A c6B).2.2 (by decide)⟩

/-! ### C7: display-rank assignment -/

/-- C7: over rows sorted by the comparator, the displayed rank of each
row equals its 1-based position unless its total score is within EPS of
the previous row's, in which case it shares the previous row's rank —
the loop of lines 429-437 computes exactly the spec-side rank rule,
which looks only at the score key. -/
theorem claim7_dense_rank (rows : List Result)
    (h : List.Chain' (fun a b => rlt b a = false) rows) :
    ranks rows = specRanks rows :=
  ranks_eq_specRanks rows h

/-- Witness for C7: two rows with equal score 85 but different penalties
are sorted consistently and both display rank 1. -/
theorem claim7_dense_rank_witness :
    ranks [r7a, r7b] = specRanks [r7a, r7b] ∧ ranks [r7a, r7b] = [1, 1] := by
  have hba : rlt r7b r7a = false := by
    have h1 : ¬ |r7b.totalscore - r7a.totalscore| > EPS := by
      show ¬ |(85 : ℚ) - 85| > EPS
      rw [sub_self, abs_zero]
      norm_num [EPS]
    have h2 : r7b.penalty ≠ r7a.penalty := by decide
    unfold rlt
    rw [if_neg h1, if_pos h2]
    rfl
  have hchain : List.Chain' (fun a b => rlt b a = false) [r7a, r7b] := by
    rw [List.chain'_cons]
    exact ⟨hba, List.chain'_singleton r7b⟩
  refine ⟨claim7_dense_rank [r7a, r7b] hchain, ?_⟩
  unfold ranks
  simp only [ranksFrom]
  rw [if_neg (by show ¬ (85 : ℚ) < 0 - EPS; norm_num [EPS]),
    if_neg (by show ¬ (85 : ℚ) < 85 - EPS; norm_num [EPS])]

/-! ### C8: submissions with an unknown problem id are not discarded -/

/-- C8 counterexample: a submission whose problem id 999 is absent from
the catalog is not discarded: the aggregation state is nonempty
afterwards — a Result for (first problem's set, user) is created and a
UserProblem keyed by the unknown id 999 records the submission. -/
theorem claim8_counterexample :
    aggregate wCat [w999] ≠ [] ∧
    (alook (aggregate wCat [w999]) ("A", 7)).isSome = true ∧
    upAt wCat (aggregate wCat [w999]) 7 999 =
      some ⟨PART_SOLVED, 50, 1, 1, 5, 5⟩ := by
  have hagg : aggregate wCat [w999] = processSub wCat [] w999 := rfl
  refine ⟨?_, ?_, ?_⟩
  · rw [hagg, processSub_found wCat [] w999 wProb (by decide) rfl]
    simp [upd]
  · rw [hagg]
    show (alook (processSub wCat [] w999) (wProb.pset, w999.userid)).isSome = true
    rw [processSub_found wCat [] w999 wProb (by decide) rfl, alook_upd_self]
    rfl
  · rw [hagg]
    show upAt wCat (processSub wCat [] w999) w999.userid w999.problemid = _
    rw [upAt_step_match wCat [] w999 wProb (by decide) rfl]
    rw [show (upAt wCat ([] : RState) w999.userid w999.problemid).getD {} =
      ({} : UserProblem) from rfl]
    rw [show w999.score = (50 : ℚ) from rfl, norm_low 50 (by norm_num)]
    rw [stepUP_fails wProb 50 w999.timestamp {} (by decide)
      (test_low 50 (by norm_num))]
    rfl

/-- C8 amended: a submission whose problem id is absent from the
id-to-index map is processed, not skipped: operator[] default-inserts
index 0, so the submission runs the normal state machine against the
first catalog problem, creating or updating the UserProblem keyed by the
unknown problem id (with its try count incremented) under the first
problem's problem set. -/
theorem claim8_amended (c : Catalog) (st : RState) (s : Submission)
    (p0 : Problem) (restp : List Problem)
    (hps : c.problems = p0 :: restp)
    (hu : s.userid ∈ c.users)
    (hid : alook c.prob_id2idx s.problemid = none) :
    upAt c (processSub c st s) s.userid s.problemid =
      some (stepUP p0 (normScore s.score) s.timestamp
        ((upAt c st s.userid s.problemid).getD {})) ∧
    (stepUP p0 (normScore s.score) s.timestamp
        ((upAt c st s.userid s.problemid).getD {})).tries =
      ((upAt c st s.userid s.problemid).getD {}).tries + 1 := by
  have hp : (c.problems[probIdx c s.problemid]? : Option Problem) = some p0 := by
    unfold probIdx
    rw [hid, hps]
    show (p0 :: restp)[(0 : Nat)]? = some p0
    simp
  exact ⟨upAt_step_match c st s p0 hu hp, stepUP_tries p0 _ _ _⟩

/-- Witness for the amended C8 at the concrete catalog and the unknown
problem id 999. -/
theorem claim8_amended_witness :
    upAt wCat (processSub wCat [] w999) w999.userid w999.problemid =
      some (stepUP wProb (normScore w999.score) w999.timestamp
        ((upAt wCat ([] : RState) w999.userid w999.problemid).getD {})) ∧
    (stepUP wProb (normScore w999.score) w999.timestamp
        ((upAt wCat ([] : RState) w999.userid w999.problemid).getD {})).tries =
      ((upAt wCat ([] : RState) w999.userid w999.problemid).getD {}).tries + 1 :=
  claim8_amended wCat [] w999 wProb [] rfl (by decide) rfl

/-! ### C9: fatal problem-record validation -/

/-- C9: if any problem record carries a non-classical category flag or an
unparsable point value, the whole load aborts with a diagnostic carrying
the first offending record's id, 1-based ordinal position, code, and
name (category checked first), and the exit status is 1; when all
records are valid, loading succeeds and the exit status is 0. -/
theorem claim9_fatal_validation (recs : List ProblemRec) :
    (∀ (pre : List ProblemRec) (r : ProblemRec) (rest : List ProblemRec),
      recs = pre ++ r :: rest → (∀ x ∈ pre, validRec x) → ¬ validRec r →
      loadProblems recs = .error (recError r (pre.length + 1)) ∧
        judgeExit recs = 1) ∧
    ((∃ r ∈ recs, ¬ validRec r) → judgeExit recs = 1) ∧
    ((∀ r ∈ recs, validRec r) →
      (∃ ps, loadProblems recs = .ok ps) ∧ judgeExit recs = 0) := by
  refine ⟨?_, ?_, ?_⟩
  · intro pre r rest hsplit hpre hr
    have herr := loadAux_err pre 1 r rest hpre hr
    have harith : (1 : Nat) + pre.length = pre.length + 1 := Nat.add_comm 1 _
    rw [harith] at herr
    have hload : loadProblems recs = .error (recError r (pre.length + 1)) := by
      unfold loadProblems
      rw [hsplit]
      exact herr
    refine ⟨hload, ?_⟩
    unfold judgeExit
    rw [hload]
  · intro hex
    obtain ⟨r, hr, hv⟩ := hex
    unfold judgeExit
    cases hl : loadProblems recs with
    | error e => rfl
    | ok ps => exact absurd (loadAux_valid recs 1 ps hl r hr) hv
  · intro hall
    obtain ⟨ps, hps⟩ := loadAux_ok recs 1 hall
    have hload : loadProblems recs = .ok ps := hps
    refine ⟨⟨ps, hload⟩, ?_⟩
    unfold judgeExit
    rw [hload]

/-- Witness for C9: a valid record followed by a challenge-flagged
record; the load aborts with an IllegalCategory diagnostic naming record
2 at position 2 and exit status 1. -/
theorem claim9_fatal_validation_witness :
    (loadProblems wRecs =
        .error (recError wBadRec ((List.length [wGoodRec]) + 1)) ∧
      judgeExit wRecs = 1) ∧
    recError wBadRec 2 = .illegalCategory 2 2 "c2" "n2" :=
  ⟨(claim9_fatal_validation wRecs).1 [wGoodRec] wBadRec [] rfl
      (by decide) (by decide),
    by decide⟩

end IOIJudge
